import Mathlib

/-!
Shallow embedding of `colour_filter.py` (gdb-colour-filter), a GDB frame
filter that renders stack frames with ANSI colour codes, together with
proofs about its behaviour.  Strings are modelled as `List Char`; host
inputs (frame attributes, parameter lookups, the `info symbol` reply) are
explicit arguments; Python exceptions are modelled with `Option`.
-/

namespace ColourFilter

/-- The ANSI escape character `\033` that starts every colour sequence. -/
def escChar : Char := '\x1b'

/-- Index of the first occurrence of `c` in `l` (Python `str.find` on the
whole string, returning `none` instead of `-1`). -/
def findIdx (c : Char) : List Char → Option Nat
  | [] => none
  | x :: xs => if x = c then some 0 else (findIdx c xs).map (· + 1)

/-- Python `colored_string.find(c, start)`: first index `≥ start` holding
`c`, `none` when absent. -/
def findFrom (s : List Char) (c : Char) (start : Nat) : Option Nat :=
  (findIdx c (s.drop start)).map (start + ·)

theorem getD_drop (l : List Char) (m : Nat) (n : Nat) (d : Char) :
    (l.drop m).getD n d = l.getD (m + n) d := by
  induction m generalizing l with
  | zero => simp
  | succ k ih =>
    cases l with
    | nil => simp [List.getD]
    | cons x xs =>
      have h1 : k + 1 + n = (k + n) + 1 := by omega
      rw [List.drop_succ_cons, ih xs, h1, List.getD_cons_succ]

theorem getD_mem_of_lt (l : List Char) (d : Char) (i : Nat) (h : i < l.length) :
    l.getD i d ∈ l := by
  rw [List.getD_eq_getElem l d h]; exact List.getElem_mem h

theorem findIdx_some {c : Char} {l : List Char} {i : Nat}
    (h : findIdx c l = some i) : i < l.length ∧ l.getD i ' ' = c := by
  induction l generalizing i with
  | nil => simp [findIdx] at h
  | cons x xs ih =>
    by_cases hx : x = c
    · simp [findIdx, hx] at h
      subst h
      simp [hx]
    · simp [findIdx, hx] at h
      obtain ⟨j, hj, rfl⟩ := h
      obtain ⟨h1, h2⟩ := ih hj
      refine ⟨by simpa using Nat.succ_lt_succ h1, ?_⟩
      simpa [List.getD_cons_succ] using h2

theorem findIdx_none {c : Char} {l : List Char} (h : findIdx c l = none) :
    ∀ j, j < l.length → l.getD j ' ' ≠ c := by
  induction l with
  | nil => intro j hj; simp at hj
  | cons x xs ih =>
    by_cases hx : x = c
    · simp [findIdx, hx] at h
    · simp [findIdx, hx] at h
      intro j hj
      cases j with
      | zero => simpa using hx
      | succ k =>
        rw [List.getD_cons_succ]
        exact ih h k (by simpa using Nat.lt_of_succ_lt_succ hj)

theorem findIdx_min {c : Char} {l : List Char} {i : Nat}
    (h : findIdx c l = some i) : ∀ j, j < i → l.getD j ' ' ≠ c := by
  induction l generalizing i with
  | nil => simp [findIdx] at h
  | cons x xs ih =>
    by_cases hx : x = c
    · simp [findIdx, hx] at h
      subst h
      intro j hj
      exact absurd hj (Nat.not_lt_zero j)
    · simp [findIdx, hx] at h
      obtain ⟨j0, hj0, rfl⟩ := h
      intro j hj
      cases j with
      | zero => simpa using hx
      | succ k =>
        rw [List.getD_cons_succ]
        exact ih hj0 k (Nat.lt_of_succ_lt_succ hj)

theorem findIdx_exists {c : Char} {l : List Char} {p : Nat}
    (hp : p < l.length) (hc : l.getD p ' ' = c) :
    ∃ i, findIdx c l = some i ∧ i ≤ p := by
  induction l generalizing p with
  | nil => simp at hp
  | cons x xs ih =>
    by_cases hx : x = c
    · exact ⟨0, by simp [findIdx, hx], Nat.zero_le _⟩
    · cases p with
      | zero => simp [List.getD_cons_zero] at hc; exact absurd hc hx
      | succ q =>
        rw [List.getD_cons_succ] at hc
        obtain ⟨i, hi, hle⟩ := ih (by simpa using Nat.lt_of_succ_lt_succ hp) hc
        exact ⟨i + 1, by simp [findIdx, hx, hi], Nat.succ_le_succ hle⟩

theorem findFrom_some {s : List Char} {c : Char} {start b : Nat}
    (h : findFrom s c start = some b) :
    start ≤ b ∧ b < s.length ∧ s.getD b ' ' = c := by
  simp only [findFrom, Option.map_eq_some'] at h
  obtain ⟨i, hi, rfl⟩ := h
  obtain ⟨h1, h2⟩ := findIdx_some hi
  rw [List.length_drop] at h1
  rw [getD_drop] at h2
  exact ⟨Nat.le_add_right _ _, by omega, h2⟩

theorem findFrom_none {s : List Char} {c : Char} {start : Nat}
    (h : findFrom s c start = none) :
    ∀ j, start ≤ j → j < s.length → s.getD j ' ' ≠ c := by
  simp only [findFrom, Option.map_eq_none'] at h
  intro j h1 h2
  have := findIdx_none h (j - start) (by rw [List.length_drop]; omega)
  rw [getD_drop] at this
  have heq : start + (j - start) = j := by omega
  rwa [heq] at this

theorem findFrom_min {s : List Char} {c : Char} {start b : Nat}
    (h : findFrom s c start = some b) :
    ∀ j, start ≤ j → j < b → s.getD j ' ' ≠ c := by
  simp only [findFrom, Option.map_eq_some'] at h
  obtain ⟨i, hi, rfl⟩ := h
  intro j h1 h2
  have := findIdx_min hi (j - start) (by omega)
  rw [getD_drop] at this
  have heq : start + (j - start) = j := by omega
  rwa [heq] at this

theorem findFrom_exists {s : List Char} {c : Char} {start p : Nat}
    (h1 : start ≤ p) (h2 : p < s.length) (h3 : s.getD p ' ' = c) :
    ∃ b, findFrom s c start = some b ∧ start ≤ b ∧ b ≤ p := by
  have hd : (s.drop start).getD (p - start) ' ' = c := by
    rw [getD_drop]
    have heq : start + (p - start) = p := by omega
    rwa [heq]
  obtain ⟨i, hi, hle⟩ := findIdx_exists (by rw [List.length_drop]; omega) hd
  exact ⟨start + i, by simp [findFrom, hi], Nat.le_add_right _ _, by omega⟩

/-- The `while` loop of `FrameColorizer.length`.  `start` and `term_seq_len`
are the loop variables; the result is the Python return value
`len(colored_string) - term_seq_len`.  The branch where
`colored_string.find('m', begin)` returns `-1` executes `end = len(s)` with
`s` undefined, raising `NameError`; that crash is modelled as `none`. -/
def lengthLoop (s : List Char) (start termSeqLen : Nat) : Option Int :=
  match h1 : findFrom s escChar start with
  | none => some ((s.length : Int) - (termSeqLen : Int))
  | some b =>
    match h2 : findFrom s 'm' b with
    | none => none
    | some e => lengthLoop s e (termSeqLen + (e - b + 1))
termination_by s.length - start
decreasing_by
  obtain ⟨hb1, hb2, hb3⟩ := findFrom_some h1
  obtain ⟨he1, he2, he3⟩ := findFrom_some h2
  have hne : b ≠ e := by
    intro hEq
    rw [hEq, he3] at hb3
    exact absurd hb3 (by decide)
  omega

/-- `FrameColorizer.length`: visible length of a coloured string, i.e. raw
length minus the total extent of the `\033 ... m` control sequences found by
the loop; `none` models the `NameError` crash on an unterminated sequence. -/
def length (s : List Char) : Option Int := lengthLoop s 0 0

/-- A string is well coloured when every escape character in it is followed
by a later terminating `m`. -/
def WellColoured (s : List Char) : Prop :=
  ∀ p < s.length, s.getD p ' ' = escChar →
    ∃ q < s.length, p < q ∧ s.getD q ' ' = 'm'

instance (s : List Char) : Decidable (WellColoured s) := by
  unfold WellColoured; infer_instance

/-! Decimal and hexadecimal rendering used by the `%d`, `%-3d`, `%016x`
format directives and the Python `hex` builtin. -/

def digitChars : List Char := "0123456789abcdef".data

def digitChar (n : Nat) : Char := digitChars.getD n '0'

def natDigitsAux (b : Nat) : Nat → Nat → List Char
  | 0, _ => []
  | fuel + 1, n => if n = 0 then [] else natDigitsAux b fuel (n / b) ++ [digitChar (n % b)]

/-- Digits of `n` in base `b`, most significant first, `"0"` for zero. -/
def natToBase (b n : Nat) : List Char := if n = 0 then ['0'] else natDigitsAux b n n

/-- Decimal rendering of a natural number (`%d`). -/
def natToStr (n : Nat) : List Char := natToBase 10 n

def spacesRep (n : Nat) : List Char := List.replicate n ' '

/-- Left justification to a minimum width (`%-3d` padding part). -/
def padLeftJust (w : Nat) (s : List Char) : List Char := s ++ spacesRep (w - s.length)

/-- Zero padding to a minimum width (`%016x` padding part). -/
def padZero (w : Nat) (s : List Char) : List Char := List.replicate (w - s.length) '0' ++ s

/-- Python `hex`: `0x` prefix, lowercase digits, leading `-` for negatives. -/
def pyHex (i : Int) : List Char :=
  if i < 0 then '-' :: '0' :: 'x' :: natToBase 16 i.natAbs
  else '0' :: 'x' :: natToBase 16 i.toNat

/-- Python whitespace as used by `unicode.strip()`. -/
def isPySpace (c : Char) : Bool :=
  c = ' ' || c = '\t' || c = '\n' || c = '\x0b' || c = '\x0c' || c = '\r'

/-- Python `unicode.strip()`: drop leading and trailing whitespace. -/
def stripPy (s : List Char) : List Char :=
  ((s.dropWhile isPySpace).reverse.dropWhile isPySpace).reverse

/-- Python `str.find(pat)` for a substring pattern: first index whose suffix
starts with `pat`, `none` instead of `-1`. -/
def findSub (s pat : List Char) : Option Nat :=
  (List.range (s.length + 1)).find? (fun i => pat.isPrefixOf (s.drop i))

/-- Python `s.rsplit(sep, 1)`: split at the last occurrence of `sep`. -/
def rsplit1 (s : List Char) (sep : Char) : List (List Char) :=
  match findIdx sep s.reverse with
  | none => [s]
  | some i => [s.take (s.length - 1 - i), s.drop (s.length - 1 - i + 1)]

/-- Digit run accepted by Python `int()`, with its value. -/
def parseDigits (s : List Char) : Option Nat :=
  if !s.isEmpty && s.all Char.isDigit then
    some (s.foldl (fun a c => a * 10 + (c.toNat - '0'.toNat)) 0)
  else none

/-- Python `int(string)`: strip whitespace, optional sign, decimal digits;
`none` models the `ValueError`. -/
def pyParseInt (s : List Char) : Option Int :=
  match stripPy s with
  | '-' :: rest => (parseDigits rest).map (fun n => -(n : Int))
  | '+' :: rest => (parseDigits rest).map (fun n => (n : Int))
  | t => (parseDigits t).map (fun n => (n : Int))

/-! Colour constants of the filter, one per `\033[...m` literal. -/

def colDW : List Char := escChar :: "[1;37m".data
def colAddr : List Char := escChar :: "[1;30m".data
def colFunc : List Char := escChar :: "[1;34m".data
def colFile : List Char := escChar :: "[0;36m".data
def colLine : List Char := escChar :: "[0;35m".data
def colReset : List Char := escChar :: "[0m".data

/-- Result of the inherited `FrameDecorator.function()`: either a symbolic
name or a bare numeric address that needs the `info symbol` fallback. -/
inductive FuncRef where
  | name (s : List Char)
  | addr (a : Nat)
deriving DecidableEq

/-- Index at which `FrameColorizer.function` truncates the `info symbol`
reply: position of `"in section"`, or `len - 1` reproducing the Python
`symbol[:-1]` slice when `find` returns `-1`. -/
def sectionCut (symbol : List Char) : Nat :=
  match findSub symbol ("in section".data) with
  | some i => i
  | none => symbol.length - 1

/-- The `name` local of `FrameColorizer.function`:
`symbol[:symbol.find('in section')].strip()`. -/
def resolvedName (symbol : List Char) : List Char :=
  stripPy (symbol.take (sectionCut symbol))

/-- `FrameColorizer.function`: colour-wrap a symbolic name, or recover a
name from the host `info symbol` reply (`infoText`) for a bare address. -/
def function (fr : FuncRef) (infoText : List Char) : List Char :=
  match fr with
  | .name f => colFunc ++ f ++ colReset
  | .addr _ =>
    let nm := resolvedName infoText
    match rsplit1 nm ' ' with
    | [p0, p1] =>
      match pyParseInt p1 with
      | none => nm
      | some off => colFunc ++ p0 ++ ' ' :: (pyHex off ++ colReset)
    | _ => nm

/-- A symbol of a lexical block: its printed name, its `is_argument` flag
and the printed value obtained from `sym.value(frame)`. -/
structure Sym where
  name : List Char
  is_argument : Bool
  value : List Char
deriving DecidableEq

/-- One block of the `superblock` chain: whether `block.function` is set,
and the symbols the block iterates over. -/
structure BlockLevel where
  hasFunction : Bool
  syms : List Sym
deriving DecidableEq

/-- One rendered argument:
`u'%s=%s' % (sym, val) if unicode(val) else unicode(sym)`. -/
def renderArgStr (s : Sym) : List Char :=
  if s.value ≠ [] then s.name ++ '=' :: s.value else s.name

/-- The `for sym in block` loop body of `frame_args`, accumulating `args`. -/
def argsLoop (syms : List Sym) : List (List Char) :=
  syms.foldl (fun acc s => if s.is_argument then acc ++ [renderArgStr s] else acc) []

/-- Python `sep.join(parts)`. -/
def joinSep (sep : List Char) : List (List Char) → List Char
  | [] => []
  | [x] => x
  | x :: y :: rest => x ++ sep ++ joinSep sep (y :: rest)

/-- `FrameColorizer.frame_args`.  The input is the host lexical-block
lookup: `none` when `self.frame.block()` raised `RuntimeError`, otherwise
the `superblock` chain, innermost first.  The walk picks the first block
with a function; without one the argument segment is empty. -/
def frame_args (blockLookup : Option (List BlockLevel)) : List Char :=
  match blockLookup with
  | none => []
  | some chain =>
    match chain.find? (fun lv => lv.hasFunction) with
    | none => []
    | some blk => joinSep (", ".data) (argsLoop blk.syms)

/-- Host-supplied attributes of one frame, as consumed by the renderer. -/
structure FrameData where
  address : Nat
  funcRef : FuncRef
  infoText : List Char
  blockLookup : Option (List BlockLevel)
  filename : List Char
  line : Option Nat
deriving DecidableEq

/-- The two GDB parameters the renderer queries. -/
structure Config where
  print_address : Bool
  width : Option Nat
deriving DecidableEq

/-- `FrameColorizer.depth`: `u'\033[1;37m#%-3d\033[0m' % self._depth`. -/
def depthStr (d : Nat) : List Char :=
  colDW ++ ('#' :: padLeftJust 3 (natToStr d)) ++ colReset

/-- `FrameColorizer.address`: `u'\033[1;30m0x%016x\033[0m' % address`. -/
def addressStr (a : Nat) : List Char :=
  colAddr ++ ('0' :: 'x' :: padZero 16 (natToBase 16 a)) ++ colReset

/-- `FrameColorizer.filename`: `u'\033[0;36m%s\033[0m' % filename`. -/
def filenameStr (fn : List Char) : List Char := colFile ++ fn ++ colReset

/-- `FrameColorizer.line`: `u'\033[0;35m:%d\033[0m' % value if value else ''`. -/
def lineStr : Option Nat → List Char
  | none => []
  | some n => if n = 0 then [] else colLine ++ (':' :: natToStr n) ++ colReset

/-- `part1` of `__str__`: depth, then either the address segment with
`' in '` or a single space. -/
def part1 (pa : Bool) (d : Nat) (a : Nat) : List Char :=
  depthStr d ++ (if pa then "  ".data ++ addressStr a ++ " in ".data else [' '])

/-- `part2` of `__str__`: `self.function() + u' \033[1;37m(' + args + u')\033[0m'`. -/
def part2 (f : FrameData) : List Char :=
  function f.funcRef f.infoText ++ (' ' :: (colDW ++ ['('])) ++
    frame_args f.blockLookup ++ (')' :: colReset)

/-- `part3` of `__str__`: `self.filename() + self.line()`. -/
def part3 (f : FrameData) : List Char := filenameStr f.filename ++ lineStr f.line

/-- The unwrapped assembly `parts = part1 + part2 + u' at ' + part3`. -/
def partsStr (cfg : Config) (d : Nat) (f : FrameData) : List Char :=
  part1 cfg.print_address d f.address ++ part2 f ++ " at ".data ++ part3 f

/-- `FrameColorizer.__str__`: wrap onto two lines when a screen width is
set and the raw assembled length exceeds it.  `none` models the `NameError`
that `self.length` would raise. -/
def renderFrame (cfg : Config) (d : Nat) (f : FrameData) : Option (List Char) :=
  match cfg.width with
  | none => some (partsStr cfg d f)
  | some w =>
    if w < (partsStr cfg d f).length then
      match length (part1 cfg.print_address d f.address) with
      | none => none
      | some L =>
        some (part1 cfg.print_address d f.address ++ part2 f ++
          '\n' :: (List.replicate (L - 1 - (if cfg.print_address then 3 else 0)).toNat ' ' ++
            " at ".data ++ part3 f))
    else some (partsStr cfg d f)

/-- `FilterProxy`: the state is the not-yet-consumed generator of
`(depth, frame)` decorators. -/
structure FilterProxy where
  frames : List (Nat × FrameData)
deriving DecidableEq

/-- `FilterProxy.__init__`: wrap each host frame with its 0-based position. -/
def FilterProxy.ofFrames (fs : List FrameData) : FilterProxy := ⟨fs.enum⟩

def seqOptions : List (Option (List Char)) → Option (List (List Char))
  | [] => some []
  | none :: _ => none
  | some x :: rest => (seqOptions rest).map (x :: ·)

/-- `FilterProxy.unroll_stack`: print the newline-join of all remaining
rendered frames (returned here as the emitted block) and exhaust the
generator. -/
def unroll_stack (cfg : Config) (st : FilterProxy) : Option (List Char) × FilterProxy :=
  ((seqOptions (st.frames.map (fun p => renderFrame cfg p.1 p.2))).map (joinSep ['\n']),
    ⟨[]⟩)

/-- `FilterProxy.next`: unroll the stack, then raise `StopIteration`; the
`Bool` is the stop signal, always raised. -/
def FilterProxy.next (cfg : Config) (st : FilterProxy) :
    Option (List Char) × Bool × FilterProxy :=
  ((unroll_stack cfg st).1, true, (unroll_stack cfg st).2)

/-! Input-side predicates and the concrete scenarios the claims are
evaluated at. -/

/-- Input-side cleanliness: none of the host-supplied strings of a frame
contains a newline character. -/
def nlFreeData (f : FrameData) : Bool :=
  decide ('\n' ∉ f.infoText) &&
  (match f.funcRef with
   | FuncRef.name s => decide ('\n' ∉ s)
   | FuncRef.addr _ => true) &&
  decide ('\n' ∉ f.filename) &&
  (match f.blockLookup with
   | none => true
   | some bl => bl.all (fun lv => lv.syms.all
      (fun sy => decide ('\n' ∉ sy.name) && decide ('\n' ∉ sy.value))))

/-- The no-wrapping condition of `__str__`: no width reported, or the raw
assembled length within the width. -/
def noWrap (cfg : Config) (d : Nat) (f : FrameData) : Bool :=
  match cfg.width with
  | none => true
  | some w => decide ((partsStr cfg d f).length ≤ w)

/-- The `info symbol` reply of the C2 scenario. -/
def c2info : List Char := "main + 16 in section .text of /bin/prog".data

/-- The `info symbol` reply of the C7 scenario. -/
def c7info : List Char := "main in section .text of /bin/prog".data

/-- Symbols of the C8 witness block. -/
def c8syms : List Sym :=
  [⟨"x".data, true, "1".data⟩, ⟨"dbg".data, true, []⟩, ⟨"loc".data, false, "9".data⟩]

/-- Block chain of the C8 witness. -/
def c8chain : List BlockLevel := [⟨false, []⟩, ⟨true, c8syms⟩]

/-- Frame of the C9 witness: its block lookup raised. -/
def c9f : FrameData :=
  ⟨0, FuncRef.name "h".data, [], none, "c.c".data, some 7⟩

/-- Frame of the C5 witness. -/
def c5f : FrameData :=
  ⟨291, FuncRef.name "main".data, [],
    some [⟨true, [⟨"argc".data, true, "1".data⟩]⟩], "m.c".data, some 3⟩

/-- Configuration of the C5 witness: width 200, address printing on. -/
def c5cfg : Config := ⟨true, some 200⟩

/-- Frame of the C6 witness. -/
def c6f : FrameData := ⟨0, FuncRef.name "g".data, [], none, "b.c".data, none⟩

/-- Configuration of the C6 witness: no width. -/
def c6cfg : Config := ⟨false, none⟩

/-- Configuration of the C1 scenario: no address printing, width 5. -/
def c1cfg : Config := ⟨false, some 5⟩

/-- Frame of the C1 scenario. -/
def c1f : FrameData := ⟨0, FuncRef.name "f".data, [], none, "a.c".data, none⟩

/-- The wrapped render of the C1 scenario. -/
def c1out : List Char :=
  part1 false 0 0 ++ part2 c1f ++
    '\n' :: (List.replicate 4 ' ' ++ " at ".data ++ part3 c1f)

theorem lengthLoop_eq_done {s : List Char} {start term : Nat}
    (heq : findFrom s escChar start = none) :
    lengthLoop s start term = some ((s.length : Int) - (term : Int)) := by
  rw [lengthLoop, heq]

theorem lengthLoop_eq_fail {s : List Char} {start term b : Nat}
    (heq : findFrom s escChar start = some b)
    (heq2 : findFrom s 'm' b = none) :
    lengthLoop s start term = none := by
  rw [lengthLoop, heq]
  split
  · rename_i h2
    exact absurd h2 (by simp)
  · rename_i b' h2
    injection h2 with h2'
    subst h2'
    split
    · rfl
    · rename_i e' h3
      rw [heq2] at h3
      exact absurd h3 (by simp)

theorem lengthLoop_eq_step {s : List Char} {start term b e : Nat}
    (heq : findFrom s escChar start = some b)
    (heq2 : findFrom s 'm' b = some e) :
    lengthLoop s start term = lengthLoop s e (term + (e - b + 1)) := by
  rw [lengthLoop, heq]
  split
  · rename_i h2
    exact absurd h2 (by simp)
  · rename_i b' h2
    injection h2 with h2'
    subst h2'
    split
    · rename_i h3
      rw [heq2] at h3
      exact absurd h3 (by simp)
    · rename_i e' h3
      rw [heq2] at h3
      injection h3 with h3'
      rw [h3']

theorem lengthLoop_none_of_unterminated (s : List Char) :
    ∀ n start term p, s.length - start ≤ n → start ≤ p → p < s.length →
      s.getD p ' ' = escChar →
      (∀ q, p ≤ q → q < s.length → s.getD q ' ' ≠ 'm') →
      lengthLoop s start term = none := by
  intro n
  induction n with
  | zero => intro start term p h1 h2 h3 _ _; omega
  | succ k ih =>
    intro start term p hn hsp hp hesc hm
    cases heq : findFrom s escChar start with
    | none =>
      obtain ⟨b, hb, _, _⟩ := findFrom_exists hsp hp hesc
      rw [heq] at hb
      exact absurd hb (by simp)
    | some b =>
      have hbp : b ≤ p := by
        by_contra hlt
        exact absurd hesc (findFrom_min heq p hsp (by omega))
      obtain ⟨hb1, hb2, hb3⟩ := findFrom_some heq
      cases heq2 : findFrom s 'm' b with
      | none => exact lengthLoop_eq_fail heq heq2
      | some e =>
        obtain ⟨he1, he2, he3⟩ := findFrom_some heq2
        have hep : e < p := by
          by_contra hge
          exact hm e (by omega) he2 he3
        have hbe : b < e := by
          have : b ≠ e := by
            intro hEq
            rw [hEq, he3] at hb3
            exact absurd hb3 (by decide)
          omega
        rw [lengthLoop_eq_step heq heq2]
        exact ih e (term + (e - b + 1)) p (by omega) (by omega) hp hesc hm

theorem lengthLoop_some_of_wellColoured (s : List Char) (hw : WellColoured s) :
    ∀ n start term, s.length - start ≤ n → start ≤ s.length →
      term ≤ start + 1 →
      (term = start + 1 → start < s.length ∧ s.getD start ' ' = 'm') →
      ∃ v, lengthLoop s start term = some v ∧ 0 ≤ v ∧ v ≤ (s.length : Int) := by
  intro n
  induction n with
  | zero =>
    intro start term hn hsl hinv1 hinv2
    have hstart : start = s.length := by omega
    have hterm : term ≤ s.length := by
      rcases Nat.lt_or_ge term (start + 1) with h | h
      · omega
      · have h2 := hinv2 (by omega)
        omega
    cases heq : findFrom s escChar start with
    | none =>
      refine ⟨(s.length : Int) - (term : Int), lengthLoop_eq_done heq, ?_, ?_⟩ <;> push_cast <;> omega
    | some b =>
      obtain ⟨hb1, hb2, _⟩ := findFrom_some heq
      omega
  | succ k ih =>
    intro start term hn hsl hinv1 hinv2
    cases heq : findFrom s escChar start with
    | none =>
      have hterm : term ≤ s.length := by
        rcases Nat.lt_or_ge term (start + 1) with h | h
        · omega
        · have h2 := hinv2 (by omega)
          omega
      refine ⟨(s.length : Int) - (term : Int), lengthLoop_eq_done heq, ?_, ?_⟩ <;> push_cast <;> omega
    | some b =>
      obtain ⟨hb1, hb2, hb3⟩ := findFrom_some heq
      obtain ⟨q, hq1, hq2, hq3⟩ := hw b hb2 hb3
      cases heq2 : findFrom s 'm' b with
      | none => exact absurd hq3 (findFrom_none heq2 q (by omega) hq1)
      | some e =>
        obtain ⟨he1, he2, he3⟩ := findFrom_some heq2
        have hbe : b < e := by
          have : b ≠ e := by
            intro hEq
            rw [hEq, he3] at hb3
            exact absurd hb3 (by decide)
          omega
        have htb : term ≤ b := by
          rcases Nat.lt_or_ge term (start + 1) with h | h
          · omega
          · have h2 := hinv2 (by omega)
            have : b ≠ start := by
              intro hEq
              rw [hEq, h2.2] at hb3
              exact absurd hb3 (by decide)
            omega
        rw [lengthLoop_eq_step heq heq2]
        exact ih e (term + (e - b + 1)) (by omega) (by omega) (by omega)
          (fun _ => ⟨he2, he3⟩)

theorem length_none_of_unterminated {s : List Char} {p : Nat}
    (hp : p < s.length) (hesc : s.getD p ' ' = escChar)
    (hm : ∀ q, p ≤ q → q < s.length → s.getD q ' ' ≠ 'm') :
    length s = none :=
  lengthLoop_none_of_unterminated s s.length 0 0 p (by omega) (by omega) hp hesc hm

theorem length_some_of_wellColoured {s : List Char} (hw : WellColoured s) :
    ∃ v, length s = some v ∧ 0 ≤ v ∧ v ≤ (s.length : Int) :=
  lengthLoop_some_of_wellColoured s hw s.length 0 0 (by omega) (by omega)
    (by omega) (by omega)

/-! Helper lemmas: character membership in the rendered pieces, absence of
newlines, and well-colouredness of `part1`. -/

theorem digitChar_mem (n : Nat) : digitChar n ∈ digitChars := by
  unfold digitChar
  rcases Nat.lt_or_ge n digitChars.length with h | h
  · rw [List.getD_eq_getElem digitChars '0' h]
    exact List.getElem_mem h
  · rw [List.getD_eq_default digitChars '0' h]
    decide

theorem mem_natDigitsAux {b : Nat} {c : Char} :
    ∀ {fuel n : Nat}, c ∈ natDigitsAux b fuel n → c ∈ digitChars := by
  intro fuel
  induction fuel with
  | zero => intro n h; simp [natDigitsAux] at h
  | succ k ih =>
    intro n h
    by_cases hn : n = 0
    · simp [natDigitsAux, hn] at h
    · simp only [natDigitsAux, if_neg hn, List.mem_append, List.mem_singleton] at h
      rcases h with h | h
      · exact ih h
      · rw [h]; exact digitChar_mem _

theorem mem_natToBase {b n : Nat} {c : Char} (h : c ∈ natToBase b n) :
    c ∈ digitChars := by
  unfold natToBase at h
  by_cases hn : n = 0
  · simp [hn] at h
    rw [h]; decide
  · rw [if_neg hn] at h
    exact mem_natDigitsAux h

theorem nl_not_mem_natToBase {b n : Nat} : '\n' ∉ natToBase b n := by
  intro h
  have := mem_natToBase h
  revert this; decide

theorem esc_not_mem_natToBase {b n : Nat} : escChar ∉ natToBase b n := by
  intro h
  have := mem_natToBase h
  revert this; decide

theorem mem_stripPy {c : Char} {s : List Char} (h : c ∈ stripPy s) : c ∈ s := by
  unfold stripPy at h
  rw [List.mem_reverse] at h
  have h2 := (List.dropWhile_sublist _).mem h
  rw [List.mem_reverse] at h2
  exact (List.dropWhile_sublist _).mem h2

theorem mem_resolvedName {c : Char} {s : List Char} (h : c ∈ resolvedName s) :
    c ∈ s := List.mem_of_mem_take (mem_stripPy h)

theorem mem_joinSep {sep : List Char} {c : Char} :
    ∀ {l : List (List Char)}, c ∈ joinSep sep l → c ∈ sep ∨ ∃ x ∈ l, c ∈ x := by
  intro l
  induction l with
  | nil => intro h; simp [joinSep] at h
  | cons x rest ih =>
    intro h
    cases rest with
    | nil =>
      simp only [joinSep] at h
      exact Or.inr ⟨x, List.mem_singleton_self x, h⟩
    | cons y r =>
      simp only [joinSep, List.append_assoc, List.mem_append] at h
      rcases h with h | h | h
      · exact Or.inr ⟨x, by simp, h⟩
      · exact Or.inl h
      · rcases ih h with h2 | ⟨z, hz, hcz⟩
        · exact Or.inl h2
        · exact Or.inr ⟨z, List.mem_cons_of_mem x hz, hcz⟩

theorem argsLoop_eq (syms : List Sym) :
    argsLoop syms = (syms.filter (fun s => s.is_argument)).map renderArgStr := by
  unfold argsLoop
  suffices h : ∀ acc, syms.foldl
      (fun acc s => if s.is_argument then acc ++ [renderArgStr s] else acc) acc =
      acc ++ (syms.filter (fun s => s.is_argument)).map renderArgStr by
    simpa using h []
  induction syms with
  | nil => intro acc; simp
  | cons s rest ih =>
    intro acc
    by_cases hs : s.is_argument
    · simp [List.foldl_cons, hs, ih, List.filter_cons]
    · simp [List.foldl_cons, hs, ih, List.filter_cons]

theorem mem_frame_args {c : Char} {bl : Option (List BlockLevel)}
    (h : c ∈ frame_args bl) :
    c = ',' ∨ c = ' ' ∨ c = '=' ∨
      ∃ chain blk, bl = some chain ∧
        chain.find? (fun lv => lv.hasFunction) = some blk ∧
        ∃ sy ∈ blk.syms, c ∈ sy.name ∨ c ∈ sy.value := by
  cases hbl : bl with
  | none => subst hbl; simp [frame_args] at h
  | some chain =>
    subst hbl
    cases hfind : chain.find? (fun lv => lv.hasFunction) with
    | none => simp only [frame_args, hfind] at h; simp at h
    | some blk =>
      simp only [frame_args, hfind] at h
      rcases mem_joinSep h with hsep | ⟨x, hx, hcx⟩
      · simp only [List.mem_cons, List.mem_singleton] at hsep
        rcases hsep with h1 | h1
        · exact Or.inl h1
        · rcases h1 with h1 | h1
          · exact Or.inr (Or.inl h1)
          · simp at h1
      · rw [argsLoop_eq] at hx
        rw [List.mem_map] at hx
        obtain ⟨sy, hsy, rfl⟩ := hx
        have hsy2 := List.mem_of_mem_filter hsy
        unfold renderArgStr at hcx
        by_cases hv : sy.value = []
        · simp only [hv, ne_eq, not_true_eq_false, if_neg, not_false_eq_true,
            if_pos] at hcx
          exact Or.inr (Or.inr (Or.inr ⟨chain, blk, rfl, hfind, sy, hsy2, Or.inl hcx⟩))
        · rw [if_pos hv] at hcx
          simp only [List.mem_append, List.mem_cons] at hcx
          rcases hcx with h1 | h1 | h1
          · exact Or.inr (Or.inr (Or.inr ⟨chain, blk, rfl, hfind, sy, hsy2, Or.inl h1⟩))
          · exact Or.inr (Or.inr (Or.inl h1))
          · exact Or.inr (Or.inr (Or.inr ⟨chain, blk, rfl, hfind, sy, hsy2, Or.inr h1⟩))

theorem wellColoured_append {a b : List Char}
    (ha : WellColoured a) (hb : WellColoured b) : WellColoured (a ++ b) := by
  intro p hp hesc
  rw [List.length_append] at hp
  rcases Nat.lt_or_ge p a.length with hpa | hpa
  · rw [List.getD_append a b ' ' p hpa] at hesc
    obtain ⟨q, hq1, hq2, hq3⟩ := ha p hpa hesc
    refine ⟨q, ?_, hq2, ?_⟩
    · rw [List.length_append]; omega
    · rwa [List.getD_append a b ' ' q hq1]
  · rw [List.getD_append_right a b ' ' p hpa] at hesc
    obtain ⟨q, hq1, hq2, hq3⟩ := hb (p - a.length) (by omega) hesc
    refine ⟨a.length + q, ?_, ?_, ?_⟩
    · rw [List.length_append]; omega
    · omega
    · rw [List.getD_append_right a b ' ' (a.length + q) (by omega)]
      simpa using hq3

theorem wellColoured_of_no_esc {s : List Char} (h : escChar ∉ s) :
    WellColoured s := by
  intro p hp hesc
  exact absurd (hesc ▸ getD_mem_of_lt s ' ' p hp) h

theorem no_esc_natToBase {b n : Nat} : escChar ∉ natToBase b n :=
  esc_not_mem_natToBase

theorem no_esc_spacesRep {n : Nat} : escChar ∉ spacesRep n := by
  intro h
  have := (List.mem_replicate.mp h).2
  exact absurd this (by decide)

theorem wellColoured_depthStr (d : Nat) : WellColoured (depthStr d) := by
  unfold depthStr
  refine wellColoured_append (wellColoured_append (by decide) ?_) (by decide)
  refine wellColoured_of_no_esc ?_
  intro h
  rcases List.mem_cons.mp h with h1 | h1
  · exact absurd h1.symm (by decide)
  · unfold padLeftJust at h1
    rcases List.mem_append.mp h1 with h2 | h2
    · exact absurd h2 esc_not_mem_natToBase
    · exact absurd h2 no_esc_spacesRep

theorem wellColoured_addressStr (a : Nat) : WellColoured (addressStr a) := by
  unfold addressStr
  refine wellColoured_append (wellColoured_append (by decide) ?_) (by decide)
  refine wellColoured_of_no_esc ?_
  intro h
  rcases List.mem_cons.mp h with h1 | h1
  · exact absurd h1.symm (by decide)
  rcases List.mem_cons.mp h1 with h2 | h2
  · exact absurd h2.symm (by decide)
  unfold padZero at h2
  rcases List.mem_append.mp h2 with h3 | h3
  · have := (List.mem_replicate.mp h3).2
    exact absurd this (by decide)
  · exact absurd h3 esc_not_mem_natToBase

theorem wellColoured_part1 (pa : Bool) (d a : Nat) :
    WellColoured (part1 pa d a) := by
  unfold part1
  refine wellColoured_append (wellColoured_depthStr d) ?_
  cases pa with
  | true =>
    rw [if_pos rfl]
    exact wellColoured_append
      (wellColoured_append (by decide) (wellColoured_addressStr a)) (by decide)
  | false =>
    rw [if_neg (by simp)]
    exact wellColoured_of_no_esc (by decide)

theorem length_part1_some (pa : Bool) (d a : Nat) :
    ∃ L, length (part1 pa d a) = some L :=
  (length_some_of_wellColoured (wellColoured_part1 pa d a)).elim
    (fun L hL => ⟨L, hL.1⟩)

/-! Newline-freeness of the rendered pieces: the only `'\n'` a rendered
frame can contain must come from the raw host-supplied strings. -/

theorem nl_not_mem_spacesRep {n : Nat} : '\n' ∉ spacesRep n := by
  intro h
  have := (List.mem_replicate.mp h).2
  exact absurd this (by decide)

theorem nl_not_mem_depthStr (d : Nat) : '\n' ∉ depthStr d := by
  unfold depthStr
  intro h
  rcases List.mem_append.mp h with h1 | h1
  · rcases List.mem_append.mp h1 with h2 | h2
    · exact absurd h2 (by decide)
    · rcases List.mem_cons.mp h2 with h3 | h3
      · exact absurd h3.symm (by decide)
      · unfold padLeftJust at h3
        rcases List.mem_append.mp h3 with h4 | h4
        · exact absurd h4 nl_not_mem_natToBase
        · exact absurd h4 nl_not_mem_spacesRep
  · exact absurd h1 (by decide)

theorem nl_not_mem_addressStr (a : Nat) : '\n' ∉ addressStr a := by
  unfold addressStr
  intro h
  rcases List.mem_append.mp h with h1 | h1
  · rcases List.mem_append.mp h1 with h2 | h2
    · exact absurd h2 (by decide)
    · rcases List.mem_cons.mp h2 with h3 | h3
      · exact absurd h3.symm (by decide)
      rcases List.mem_cons.mp h3 with h4 | h4
      · exact absurd h4.symm (by decide)
      unfold padZero at h4
      rcases List.mem_append.mp h4 with h5 | h5
      · have := (List.mem_replicate.mp h5).2
        exact absurd this (by decide)
      · exact absurd h5 nl_not_mem_natToBase
  · exact absurd h1 (by decide)

theorem nl_not_mem_part1 (pa : Bool) (d a : Nat) : '\n' ∉ part1 pa d a := by
  unfold part1
  intro h
  rcases List.mem_append.mp h with h1 | h1
  · exact absurd h1 (nl_not_mem_depthStr d)
  cases pa with
  | true =>
    rw [if_pos rfl] at h1
    rcases List.mem_append.mp h1 with h2 | h2
    · rcases List.mem_append.mp h2 with h3 | h3
      · exact absurd h3 (by decide)
      · exact absurd h3 (nl_not_mem_addressStr a)
    · exact absurd h2 (by decide)
  | false =>
    rw [if_neg (by simp)] at h1
    exact absurd h1 (by decide)

theorem nl_not_mem_pyHex {i : Int} : '\n' ∉ pyHex i := by
  unfold pyHex
  intro h
  rcases Int.lt_or_le i 0 with hi | hi
  · rw [if_pos hi] at h
    rcases List.mem_cons.mp h with h1 | h1
    · exact absurd h1.symm (by decide)
    rcases List.mem_cons.mp h1 with h2 | h2
    · exact absurd h2.symm (by decide)
    rcases List.mem_cons.mp h2 with h3 | h3
    · exact absurd h3.symm (by decide)
    · exact absurd h3 nl_not_mem_natToBase
  · rw [if_neg (by omega)] at h
    rcases List.mem_cons.mp h with h1 | h1
    · exact absurd h1.symm (by decide)
    rcases List.mem_cons.mp h1 with h2 | h2
    · exact absurd h2.symm (by decide)
    · exact absurd h2 nl_not_mem_natToBase

theorem mem_rsplit1_left {s : List Char} {sep : Char} {p0 p1 : List Char}
    (h : rsplit1 s sep = [p0, p1]) {c : Char} (hc : c ∈ p0) : c ∈ s := by
  unfold rsplit1 at h
  cases hf : findIdx sep s.reverse with
  | none => rw [hf] at h; simp at h
  | some i =>
    rw [hf] at h
    injection h with h1 h2
    injection h2 with h2 _
    subst h1
    exact List.mem_of_mem_take hc

theorem function_addr_one {a : Nat} {it nm0 : List Char}
    (hsp : rsplit1 (resolvedName it) ' ' = [nm0]) :
    function (FuncRef.addr a) it = resolvedName it := by
  simp only [function, hsp]

theorem function_addr_two_none {a : Nat} {it p0 p1 : List Char}
    (hsp : rsplit1 (resolvedName it) ' ' = [p0, p1])
    (hpi : pyParseInt p1 = none) :
    function (FuncRef.addr a) it = resolvedName it := by
  simp only [function, hsp, hpi]

theorem function_addr_two_some {a : Nat} {it p0 p1 : List Char} {off : Int}
    (hsp : rsplit1 (resolvedName it) ' ' = [p0, p1])
    (hpi : pyParseInt p1 = some off) :
    function (FuncRef.addr a) it = colFunc ++ p0 ++ ' ' :: (pyHex off ++ colReset) := by
  simp only [function, hsp, hpi]

theorem rsplit1_shape (s : List Char) (sep : Char) :
    (∃ nm0, rsplit1 s sep = [nm0]) ∨ ∃ p0 p1, rsplit1 s sep = [p0, p1] := by
  unfold rsplit1
  cases findIdx sep s.reverse with
  | none => exact Or.inl ⟨s, rfl⟩
  | some i => exact Or.inr ⟨_, _, rfl⟩

theorem nl_not_mem_function {fr : FuncRef} {infoText : List Char}
    (hname : ∀ s, fr = FuncRef.name s → '\n' ∉ s)
    (hinfo : '\n' ∉ infoText) :
    '\n' ∉ function fr infoText := by
  cases fr with
  | name s =>
    intro h
    simp only [function] at h
    rcases List.mem_append.mp h with h1 | h1
    · rcases List.mem_append.mp h1 with h2 | h2
      · exact absurd h2 (by decide)
      · exact absurd h2 (hname s rfl)
    · exact absurd h1 (by decide)
  | addr a =>
    intro h
    have hnm : '\n' ∉ resolvedName infoText := fun hx => hinfo (mem_resolvedName hx)
    rcases rsplit1_shape (resolvedName infoText) ' ' with ⟨nm0, hsp⟩ | ⟨p0, p1, hsp⟩
    · rw [function_addr_one hsp] at h
      exact absurd h hnm
    cases hpi : pyParseInt p1 with
    | none =>
      rw [function_addr_two_none hsp hpi] at h
      exact absurd h hnm
    | some off =>
      rw [function_addr_two_some hsp hpi] at h
      rcases List.mem_append.mp h with h1 | h1
      · rcases List.mem_append.mp h1 with h2 | h2
        · exact absurd h2 (by decide)
        · exact hnm (mem_rsplit1_left hsp h2)
      rcases List.mem_cons.mp h1 with h2 | h2
      · exact absurd h2.symm (by decide)
      rcases List.mem_append.mp h2 with h3 | h3
      · exact absurd h3 nl_not_mem_pyHex
      · exact absurd h3 (by decide)

theorem findIdx_eq_none {c : Char} {l : List Char} (h : c ∉ l) :
    findIdx c l = none := by
  induction l with
  | nil => rfl
  | cons x xs ih =>
    have hx : x ≠ c := fun hEq => h (by rw [hEq]; exact List.mem_cons_self c xs)
    simp only [findIdx, if_neg hx]
    rw [ih (fun hm => h (List.mem_cons_of_mem x hm))]
    rfl

theorem rsplit1_single {s : List Char} {sep : Char} (h : sep ∉ s) :
    rsplit1 s sep = [s] := by
  unfold rsplit1
  rw [findIdx_eq_none (fun hm => h (List.mem_reverse.mp hm))]

theorem nl_not_mem_frame_args {f : FrameData} (h : nlFreeData f = true) :
    '\n' ∉ frame_args f.blockLookup := by
  intro hm
  rcases mem_frame_args hm with h1 | h1 | h1 | ⟨chain, blk, hbl, hfind, sy, hsy, hc⟩
  · exact absurd h1 (by decide)
  · exact absurd h1 (by decide)
  · exact absurd h1 (by decide)
  · unfold nlFreeData at h
    simp only [Bool.and_eq_true] at h
    obtain ⟨⟨⟨_, _⟩, _⟩, h4⟩ := h
    rw [hbl] at h4
    rw [List.all_eq_true] at h4
    have hlv := h4 _ (List.mem_of_find?_eq_some hfind)
    rw [List.all_eq_true] at hlv
    have hsy2 := hlv _ hsy
    rw [Bool.and_eq_true] at hsy2
    rcases hc with hc | hc
    · exact absurd hc (of_decide_eq_true hsy2.1)
    · exact absurd hc (of_decide_eq_true hsy2.2)

theorem nl_not_mem_part2 {f : FrameData} (h : nlFreeData f = true) :
    '\n' ∉ part2 f := by
  have hfn : '\n' ∉ function f.funcRef f.infoText := by
    apply nl_not_mem_function
    · intro s hs
      unfold nlFreeData at h
      simp only [Bool.and_eq_true] at h
      have := h.1.1.2
      rw [hs] at this
      exact of_decide_eq_true this
    · unfold nlFreeData at h
      simp only [Bool.and_eq_true] at h
      exact of_decide_eq_true h.1.1.1
  intro hm
  unfold part2 at hm
  rcases List.mem_append.mp hm with h1 | h1
  · rcases List.mem_append.mp h1 with h2 | h2
    · rcases List.mem_append.mp h2 with h3 | h3
      · exact absurd h3 hfn
      rcases List.mem_cons.mp h3 with h4 | h4
      · exact absurd h4.symm (by decide)
      · exact absurd h4 (by decide)
    · exact absurd h2 (nl_not_mem_frame_args h)
  · rcases List.mem_cons.mp h1 with h2 | h2
    · exact absurd h2.symm (by decide)
    · exact absurd h2 (by decide)

theorem nl_not_mem_part3 {f : FrameData} (h : nlFreeData f = true) :
    '\n' ∉ part3 f := by
  have hfn : '\n' ∉ f.filename := by
    unfold nlFreeData at h
    simp only [Bool.and_eq_true] at h
    exact of_decide_eq_true h.1.2
  intro hm
  unfold part3 at hm
  rcases List.mem_append.mp hm with h1 | h1
  · unfold filenameStr at h1
    rcases List.mem_append.mp h1 with h2 | h2
    · rcases List.mem_append.mp h2 with h3 | h3
      · exact absurd h3 (by decide)
      · exact absurd h3 hfn
    · exact absurd h2 (by decide)
  · cases hl : f.line with
    | none => rw [hl] at h1; exact absurd h1 (by decide)
    | some n =>
      rw [hl] at h1
      simp only [lineStr] at h1
      by_cases hn : n = 0
      · rw [if_pos hn] at h1
        exact absurd h1 (by decide)
      · rw [if_neg hn] at h1
        rcases List.mem_append.mp h1 with h2 | h2
        · rcases List.mem_append.mp h2 with h3 | h3
          · exact absurd h3 (by decide)
          rcases List.mem_cons.mp h3 with h4 | h4
          · exact absurd h4.symm (by decide)
          · exact absurd h4 nl_not_mem_natToBase
        · exact absurd h2 (by decide)

theorem nl_not_mem_partsStr {cfg : Config} {d : Nat} {f : FrameData}
    (h : nlFreeData f = true) : '\n' ∉ partsStr cfg d f := by
  intro hm
  unfold partsStr at hm
  rcases List.mem_append.mp hm with h1 | h1
  · rcases List.mem_append.mp h1 with h2 | h2
    · rcases List.mem_append.mp h2 with h3 | h3
      · exact absurd h3 (nl_not_mem_part1 _ _ _)
      · exact absurd h3 (nl_not_mem_part2 h)
    · exact absurd h2 (by decide)
  · exact absurd h1 (nl_not_mem_part3 h)

theorem renderFrame_nowidth {cfg : Config} {d : Nat} {f : FrameData}
    (h : cfg.width = none) : renderFrame cfg d f = some (partsStr cfg d f) := by
  simp only [renderFrame, h]

theorem renderFrame_fits {cfg : Config} {d : Nat} {f : FrameData} {w : Nat}
    (h : cfg.width = some w) (h2 : ¬ w < (partsStr cfg d f).length) :
    renderFrame cfg d f = some (partsStr cfg d f) := by
  simp only [renderFrame, h, if_neg h2]

theorem renderFrame_wrap {cfg : Config} {d : Nat} {f : FrameData} {w : Nat} {L : Int}
    (h : cfg.width = some w) (h2 : w < (partsStr cfg d f).length)
    (h3 : length (part1 cfg.print_address d f.address) = some L) :
    renderFrame cfg d f = some (part1 cfg.print_address d f.address ++ part2 f ++
      '\n' :: (List.replicate (L - 1 - (if cfg.print_address then 3 else 0)).toNat ' ' ++
        " at ".data ++ part3 f)) := by
  simp only [renderFrame, h, if_pos h2, h3]

/-! The claims.  Each claim is settled by one theorem, with a witness
instantiating it at a concrete input when the theorem carries hypotheses. -/

/-- C3: on every input string that contains the colour-start marker (the
escape character) with no terminating `m` anywhere at or after it, the
visible-length computation fails (the `NameError` on the undefined
variable `s`, modelled as `none`) instead of returning a length. -/
theorem length_unterminated_fails (s : List Char) (p : Nat)
    (hp : p < s.length) (hesc : s.getD p ' ' = escChar)
    (hm : ∀ q < s.length, p ≤ q → s.getD q ' ' ≠ 'm') :
    length s = none :=
  length_none_of_unterminated hp hesc (fun q h1 h2 => hm q h2 h1)

/-- Witness for C3 at the one-character input `[escChar]`. -/
theorem length_unterminated_fails_witness :
    (0 < ([escChar] : List Char).length ∧
      ([escChar] : List Char).getD 0 ' ' = escChar ∧
      ∀ q < ([escChar] : List Char).length, 0 ≤ q →
        ([escChar] : List Char).getD q ' ' ≠ 'm') ∧
    length [escChar] = none :=
  ⟨⟨by decide, by decide, by decide⟩,
    length_unterminated_fails [escChar] 0 (by decide) (by decide) (by decide)⟩

/-- C4: the visible-length computation strips the colour-control sequences
before counting: on `"\033[1;37m#0  \033[0m"` it returns `4`, the length
of `"#0  "`, so each marker pair contributes zero. -/
theorem length_strips_colour_markers :
    length ("\x1b[1;37m#0  \x1b[0m".data) = some 4 ∧ ("#0  ".data).length = 4 := by
  constructor
  · simp [length, lengthLoop, findFrom, findIdx, escChar]
  · decide

/-- C10: on every input in which each occurrence of the escape character is
followed by a later `m`, the visible-length computation returns a value `v`
with `0 ≤ v ≤` the raw length: the counted control sequences are pairwise
disjoint, so the subtracted total never exceeds the string length. -/
theorem length_bounded_when_terminated (s : List Char) (hw : WellColoured s) :
    ∃ v, length s = some v ∧ 0 ≤ v ∧ v ≤ (s.length : Int) :=
  length_some_of_wellColoured hw

/-- Witness for C10 at `"\033[0m ok"`. -/
theorem length_bounded_when_terminated_witness :
    WellColoured ("\x1b[0m ok".data) ∧
    ∃ v, length ("\x1b[0m ok".data) = some v ∧ 0 ≤ v ∧
      v ≤ (("\x1b[0m ok".data).length : Int) :=
  ⟨by decide, length_bounded_when_terminated _ (by decide)⟩

/-- Counterexample to C2: for the bare address `0x400000` and reply
`"main + 16 in section .text of /bin/prog"`, the resolution does not yield
`"main 0x10"` (neither raw nor colour-wrapped): `rsplit` keeps the `+` in
the name component. -/
theorem resolve_offset_keeps_plus_cex :
    function (FuncRef.addr 4194304) c2info ≠ colFunc ++ "main 0x10".data ++ colReset ∧
    function (FuncRef.addr 4194304) c2info ≠ "main 0x10".data := by
  constructor
  · decide
  · decide

/-- C2 (amended): the resolution yields `"main + 0x10"`, wrapped in the
function colour pair: the name component kept by `rsplit(' ', 1)` is
`"main +"`, and the offset `16` is rendered `0x10`. -/
theorem resolve_offset_value :
    function (FuncRef.addr 4194304) c2info = colFunc ++ "main + 0x10".data ++ colReset := by
  decide

/-- C7: when the truncated and stripped nearest-symbol text has no
space-separable offset component, the resolution returns it verbatim,
without any colour wrapping or offset. -/
theorem resolve_bare_name_verbatim (a : Nat) (info : List Char)
    (h : ' ' ∉ resolvedName info) :
    function (FuncRef.addr a) info = resolvedName info :=
  function_addr_one (rsplit1_single h)

/-- Witness for C7 at `"main in section .text of /bin/prog"`. -/
theorem resolve_bare_name_verbatim_witness :
    (' ' ∉ resolvedName c7info) ∧
    function (FuncRef.addr 4194304) c7info = resolvedName c7info ∧
    resolvedName c7info = "main".data :=
  ⟨by decide, resolve_bare_name_verbatim 4194304 c7info (by decide), by decide⟩

/-- C8: for the selected lexical block, the arguments segment is the
comma-space join over the argument symbols of `name` when the evaluated
value is empty and `name=value` otherwise. -/
theorem frame_args_join_spec (chain : List BlockLevel) (blk : BlockLevel)
    (h : chain.find? (fun lv => lv.hasFunction) = some blk) :
    frame_args (some chain) =
      joinSep (", ".data)
        ((blk.syms.filter (fun sy => sy.is_argument)).map
          (fun sy => if sy.value = [] then sy.name else sy.name ++ '=' :: sy.value)) := by
  simp only [frame_args, h, argsLoop_eq]
  congr 1
  apply List.map_congr_left
  intro sy _
  by_cases hv : sy.value = []
  · simp [renderArgStr, hv]
  · simp [renderArgStr, hv]

/-- Witness for C8: a block with a nonempty-valued argument, an
empty-valued argument and a non-argument symbol renders `"x=1, dbg"`. -/
theorem frame_args_join_spec_witness :
    (c8chain.find? (fun lv => lv.hasFunction) = some ⟨true, c8syms⟩) ∧
    frame_args (some c8chain) = "x=1, dbg".data := by
  refine ⟨by decide, ?_⟩
  rw [frame_args_join_spec c8chain ⟨true, c8syms⟩ (by decide)]
  decide

/-- C9: when the lexical-block lookup raises (no current block), the
argument builder returns the empty contribution instead of propagating,
and the frame still renders to a value. -/
theorem block_error_empty_args (cfg : Config) (d : Nat) (f : FrameData)
    (h : f.blockLookup = none) :
    frame_args f.blockLookup = [] ∧ ∃ v, renderFrame cfg d f = some v := by
  refine ⟨by rw [h]; rfl, ?_⟩
  cases hw : cfg.width with
  | none => exact ⟨_, renderFrame_nowidth hw⟩
  | some w =>
    rcases Nat.lt_or_ge w (partsStr cfg d f).length with hlen | hlen
    · obtain ⟨L, hL⟩ := length_part1_some cfg.print_address d f.address
      exact ⟨_, renderFrame_wrap hw hlen hL⟩
    · exact ⟨_, renderFrame_fits hw (by omega)⟩

/-- Witness for C9 at a frame whose block lookup failed. -/
theorem block_error_empty_args_witness :
    c9f.blockLookup = none ∧
    (frame_args c9f.blockLookup = [] ∧
      ∃ v, renderFrame (Config.mk true (some 10)) 0 c9f = some v) :=
  ⟨rfl, block_error_empty_args (Config.mk true (some 10)) 0 c9f rfl⟩

/-- C5: when the display width is unavailable or the raw assembled length
is at most the width, the render is the unwrapped single-line assembly,
with no line break. -/
theorem render_single_line (cfg : Config) (d : Nat) (f : FrameData)
    (h : noWrap cfg d f = true) (hnl : nlFreeData f = true) :
    renderFrame cfg d f = some (partsStr cfg d f) ∧
    (partsStr cfg d f).count '\n' = 0 := by
  refine ⟨?_, List.count_eq_zero.mpr (nl_not_mem_partsStr hnl)⟩
  cases hw : cfg.width with
  | none => exact renderFrame_nowidth hw
  | some w =>
    have hle : (partsStr cfg d f).length ≤ w := by
      unfold noWrap at h
      rw [hw] at h
      exact of_decide_eq_true h
    exact renderFrame_fits hw (by omega)

/-- Witness for C5 at a frame fitting in width 200. -/
theorem render_single_line_witness :
    noWrap c5cfg 0 c5f = true ∧ nlFreeData c5f = true ∧
    (renderFrame c5cfg 0 c5f = some (partsStr c5cfg 0 c5f) ∧
      (partsStr c5cfg 0 c5f).count '\n' = 0) :=
  ⟨by decide, by decide, render_single_line c5cfg 0 c5f (by decide) (by decide)⟩

/-- C6: consuming a proxy over three frames emits one newline-joined block
holding the three renders, tagged with depths 0, 1 and 2 in the supplied
order, and signals completion; consuming the exhausted proxy again emits
only the empty block and signals completion immediately. -/
theorem filter_proxy_single_pass (cfg : Config) (f0 f1 f2 : FrameData)
    (r0 r1 r2 : List Char)
    (h0 : renderFrame cfg 0 f0 = some r0)
    (h1 : renderFrame cfg 1 f1 = some r1)
    (h2 : renderFrame cfg 2 f2 = some r2) :
    FilterProxy.next cfg (FilterProxy.ofFrames [f0, f1, f2]) =
      (some (r0 ++ '\n' :: (r1 ++ '\n' :: r2)), true, FilterProxy.mk []) ∧
    FilterProxy.next cfg (FilterProxy.next cfg (FilterProxy.ofFrames [f0, f1, f2])).2.2 =
      (some [], true, FilterProxy.mk []) := by
  constructor
  · simp [FilterProxy.next, unroll_stack, FilterProxy.ofFrames, List.enum,
      List.enumFrom, seqOptions, h0, h1, h2, joinSep]
  · simp [FilterProxy.next, unroll_stack, FilterProxy.ofFrames, List.enum,
      List.enumFrom, seqOptions, joinSep]

/-- Witness for C6 at a three-frame stack. -/
theorem filter_proxy_single_pass_witness :
    renderFrame c6cfg 0 c6f = some (partsStr c6cfg 0 c6f) ∧
    renderFrame c6cfg 1 c6f = some (partsStr c6cfg 1 c6f) ∧
    renderFrame c6cfg 2 c6f = some (partsStr c6cfg 2 c6f) ∧
    (FilterProxy.next c6cfg (FilterProxy.ofFrames [c6f, c6f, c6f]) =
      (some (partsStr c6cfg 0 c6f ++ '\n' ::
        (partsStr c6cfg 1 c6f ++ '\n' :: partsStr c6cfg 2 c6f)),
        true, FilterProxy.mk []) ∧
     FilterProxy.next c6cfg
        (FilterProxy.next c6cfg (FilterProxy.ofFrames [c6f, c6f, c6f])).2.2 =
      (some [], true, FilterProxy.mk [])) :=
  ⟨rfl, rfl, rfl, filter_proxy_single_pass c6cfg c6f c6f c6f _ _ _ rfl rfl rfl⟩

/-- Counterexample to C1 as stated: at width 5 this frame wraps, and the
render follows the two-line layout, but the first line's visible length is
9, not strictly below the width 5: the code never bounds or wraps the
function/arguments segment of the first line. -/
theorem wrap_first_line_not_bounded_cex :
    c1cfg.width = some 5 ∧ 5 < (partsStr c1cfg 0 c1f).length ∧
    renderFrame c1cfg 0 c1f = some c1out ∧
    c1out.takeWhile (fun c => c ≠ '\n') =
      part1 c1cfg.print_address 0 c1f.address ++ part2 c1f ∧
    length (c1out.takeWhile (fun c => c ≠ '\n')) = some 9 ∧ ¬ ((9 : Int) < 5) := by
  have hL : length (part1 c1cfg.print_address 0 c1f.address) = some 5 := by
    have hp : part1 c1cfg.print_address 0 c1f.address = "\x1b[1;37m#0  \x1b[0m ".data := by
      decide
    rw [hp]
    simp [length, lengthLoop, findFrom, findIdx, escChar]
  refine ⟨rfl, by decide, ?_, by decide, ?_, by decide⟩
  · have h2 := renderFrame_wrap (show c1cfg.width = some 5 from rfl)
      (show 5 < (partsStr c1cfg 0 c1f).length by decide) hL
    rw [h2]
    decide
  · have ht : c1out.takeWhile (fun c => c ≠ '\n') =
        "\x1b[1;37m#0  \x1b[0m \x1b[1;34mf\x1b[0m \x1b[1;37m()\x1b[0m".data := by
      decide
    rw [ht]
    simp [length, lengthLoop, findFrom, findIdx, escChar]

/-- C1 (amended): with a width set and exceeded by the raw assembled
length, the render is two lines holding exactly one line break: the first
line is the depth/address prefix followed by the function/arguments
segment, and the second is indented by the prefix's visible length minus
one, minus three more columns when the address segment was present,
followed by `" at "` and the file/line segment.  (The stated bound that
the first line's visible length stays strictly below the width does not
hold; see the counterexample.) -/
theorem wrap_two_line_layout (cfg : Config) (d : Nat) (f : FrameData) (w : Nat)
    (hw : cfg.width = some w) (hlen : w < (partsStr cfg d f).length)
    (hnl : nlFreeData f = true) :
    ∃ L, length (part1 cfg.print_address d f.address) = some L ∧
      renderFrame cfg d f = some (part1 cfg.print_address d f.address ++ part2 f ++
        '\n' :: (List.replicate (L - 1 - (if cfg.print_address then 3 else 0)).toNat ' ' ++
          " at ".data ++ part3 f)) ∧
      (part1 cfg.print_address d f.address ++ part2 f ++
        '\n' :: (List.replicate (L - 1 - (if cfg.print_address then 3 else 0)).toNat ' ' ++
          " at ".data ++ part3 f)).count '\n' = 1 := by
  obtain ⟨L, hL⟩ := length_part1_some cfg.print_address d f.address
  refine ⟨L, hL, renderFrame_wrap hw hlen hL, ?_⟩
  have e1 : (part1 cfg.print_address d f.address).count '\n' = 0 :=
    List.count_eq_zero.mpr (nl_not_mem_part1 _ _ _)
  have e2 : (part2 f).count '\n' = 0 := List.count_eq_zero.mpr (nl_not_mem_part2 hnl)
  have e3 : (List.replicate (L - 1 - (if cfg.print_address then 3 else 0)).toNat ' ' ++
      " at ".data ++ part3 f).count '\n' = 0 := by
    refine List.count_eq_zero.mpr ?_
    intro hm
    rcases List.mem_append.mp hm with hmm | hmm
    · rcases List.mem_append.mp hmm with h5 | h5
      · exact absurd (List.mem_replicate.mp h5).2 (by decide)
      · exact absurd h5 (by decide)
    · exact absurd hmm (nl_not_mem_part3 hnl)
  rw [List.count_append, List.count_append, List.count_cons, e1, e2, e3]
  decide

/-- Witness for the amended C1 at the width-5 scenario. -/
theorem wrap_two_line_layout_witness :
    c1cfg.width = some 5 ∧ 5 < (partsStr c1cfg 0 c1f).length ∧
    nlFreeData c1f = true ∧
    (∃ L, length (part1 c1cfg.print_address 0 c1f.address) = some L ∧
      renderFrame c1cfg 0 c1f = some (part1 c1cfg.print_address 0 c1f.address ++
        part2 c1f ++
        '\n' :: (List.replicate (L - 1 - (if c1cfg.print_address then 3 else 0)).toNat ' ' ++
          " at ".data ++ part3 c1f)) ∧
      (part1 c1cfg.print_address 0 c1f.address ++ part2 c1f ++
        '\n' :: (List.replicate (L - 1 - (if c1cfg.print_address then 3 else 0)).toNat ' ' ++
          " at ".data ++ part3 c1f)).count '\n' = 1) :=
  ⟨rfl, by decide, by decide,
    wrap_two_line_layout c1cfg 0 c1f 5 rfl (by decide) (by decide)⟩

end ColourFilter
